import Mathlib

/-!
A verification development for the `vanilla` cooperative-concurrency runtime.

The Python source consists of two files:
  * `vanilla.py` — the hub (event loop), `Event`, `Channel`, `Signal`,
    `Scheduler` (the timer heap), plus out-of-scope TCP/HTTP layers;
  * `vanilla/message.py` — the pipe rendezvous primitives (`Pipe`, `Sender`,
    `Recver`, `Queue`, `Dealer`, `Router`, `Broadcast`, `Gate`, `Value`).

Each definition below is a shallow embedding of one piece of that source.
Python exception control flow is made explicit with small result types;
`time.time()` is modelled as an explicit integer "now" argument measured in
milliseconds (the Python code stores absolute seconds as floats; only
comparisons and differences of these values matter to the claims, and
`due = now + delay` preserves them exactly).
-/

namespace Vanilla

/-- The exception taxonomy of the runtime (`vanilla.py` lines 27-44 and the
`vanilla.exception` module used by `message.py`): `Timeout`, `Closed`,
`Stop` (a subclass of `Closed`), `Filter`, `Abandoned`, and arbitrary other
exceptions identified by a code. -/
inductive Exc where
  | timeoutE : Exc
  | closed : Exc
  | stopE : Exc
  | abandoned : Exc
  | filterE : Exc
  | other : Nat → Exc
deriving DecidableEq, Repr

/-! ### `End.ready` — `vanilla/message.py` lines 156-162

```python
@property
def ready(self):
    if self.middle.closed:
        raise vanilla.exception.Closed
    if self.other is None:
        raise vanilla.exception.Abandoned
    return bool(self.other.current)
```

An `End` is either a `Sender` or a `Recver`; both inherit this property
unchanged, with `other` the weakref-dereference of the opposite end and
`other.current` the task parked on the opposite end.  The state visible to
`ready` is three booleans. -/

/-- The state of a pipe end as observed by `End.ready`: whether the middle is
closed, whether the opposite end's weakref is still live, and whether the
opposite end has a parked task (`other.current` is non-None). -/
structure EndState where
  closed : Bool
  otherLive : Bool
  otherCurrent : Bool
deriving DecidableEq, Repr

/-- Result of evaluating a Python property/function that may raise. -/
inductive ReadyRes where
  | val : Bool → ReadyRes
  | raised : Exc → ReadyRes
deriving DecidableEq, Repr

/-- `End.ready`, `vanilla/message.py` lines 156-162: raises `Closed` if the
middle is closed, raises `Abandoned` if the other end has been collected,
otherwise returns whether the other end has a parked task. -/
def endReady (e : EndState) : ReadyRes :=
  if e.closed then .raised .closed
  else if !e.otherLive then .raised .abandoned
  else .val e.otherCurrent

/-- `End.halted`, `vanilla/message.py` lines 152-154:
`bool(self.middle.closed or self.other is None)`. -/
def endHalted (e : EndState) : Bool :=
  e.closed || !e.otherLive

/-! ### The unbuffered rendezvous — `vanilla/message.py`

`Sender.send` (lines 209-220):
```python
def send(self, item, timeout=-1):
    if not self.ready:
        self.pause(timeout=timeout)
    if isinstance(item, Exception):
        return self.hub.throw_to(self.other.peak, item)
    return self.hub.switch_to(self.other.peak, self.other, item)
```

`Recver.recv` (lines 269-281):
```python
def recv(self, timeout=-1):
    if self.ready:
        self.select()
        # switch directly, as we need to pause
        _, ret = self.other.peak.switch(self.other, None)
        self.unselect()
        return ret
    return self.pause(timeout=timeout)
```

For one Sender task repeatedly sending the items of a list and one Recver
task repeatedly receiving, on an open pipe whose ends both stay live (the
scope of the rendezvous-equivalence claim), these two methods give a
two-task state machine.  `parked = some i` is the sender paused inside
`send` after selecting itself while holding `i` (its `pause` at line 215);
`recverWaiting = true` is the recver paused inside `recv` (its `pause` at
line 281).  A step of the machine is one task running until it blocks,
finishes its call, or hands the item over:

  * sender's turn, recver parked: `send` sees `ready`, delivers the item to
    the parked recver via `switch_to` (line 220) — the recver's `pause`
    returns the item;
  * sender's turn, recver absent: `send` selects and pauses holding the item;
  * recver's turn, sender parked: `recv` sees `ready`, switches directly into
    the sender (line 277), which completes its `send` by handing its held
    item back (line 220);
  * recver's turn, sender absent: `recv` selects and pauses.
-/

/-- Joint state of an unbuffered pipe with one sending task (with the list of
items it has still to send) and one receiving task. -/
structure PipeSt where
  pending : List Nat
  parked : Option Nat
  recverWaiting : Bool
  received : List Nat
deriving DecidableEq, Repr

/-- One scheduling step of the rendezvous machine: `true` runs the sender
task, `false` runs the recver task.  A blocked task's step is a no-op. -/
def pipeStep (s : PipeSt) (senderTurn : Bool) : PipeSt :=
  if senderTurn then
    match s.parked, s.pending with
    | none, i :: rest =>
      if s.recverWaiting then
        -- Sender.send line 214: ready, so skip the pause; line 220:
        -- switch_to the parked recver delivering (self.other, item)
        { s with pending := rest, recverWaiting := false,
                 received := s.received ++ [i] }
      else
        -- Sender.send line 215: not ready, select and pause holding item
        { s with pending := rest, parked := some i }
    | _, _ => s
  else
    if s.recverWaiting then s
    else
      match s.parked with
      | some i =>
        -- Recver.recv lines 274-279: sender is ready; the direct switch
        -- resumes the sender, whose send completes by switching back with
        -- (self.other, item)
        { s with parked := none, received := s.received ++ [i] }
      | none =>
        -- Recver.recv line 281: not ready, select and pause
        { s with recverWaiting := true }

/-- Run the rendezvous machine from the initial state (sender has `xs` to
send, nobody parked, nothing received) under an arbitrary schedule. -/
def pipeRun (xs : List Nat) (sched : List Bool) : PipeSt :=
  sched.foldl pipeStep { pending := xs, parked := none,
                         recverWaiting := false, received := [] }

/-! ### `Channel` — `vanilla.py` lines 179-251

A `Channel` has a `closed` flag, an optional `pipeline` of transform
functions, a deque of buffered `items` and a deque of `waiters` (parked
tasks).  Items travelling through a channel are either plain values,
exception instances, or `preserve_exception` wrappers. -/

/-- An item held in / delivered through a `Channel`: a plain value, an
exception instance, or a `preserve_exception` wrapper carrying an
exception with its original traceback. -/
inductive CItem where
  | val : Nat → CItem
  | exc : Exc → CItem
  | preserved : Exc → CItem
deriving DecidableEq, Repr

/-- `isinstance(item, Closed)`: `Stop` is a subclass of `Closed`
(`vanilla.py` lines 31-36); no other item is a `Closed` instance. -/
def isClosedExc : CItem → Bool
  | .exc .closed => true
  | .exc .stopE => true
  | _ => false

/-- The result of calling one pipeline transform `f(item)`
(`vanilla.py` line 202): a normal return, a raised `Filter`, or another
raised exception. -/
inductive TRes where
  | ok : CItem → TRes
  | filterR : TRes
  | errR : Exc → TRes

/-- The `try`/`for` block of `Channel.send` (`vanilla.py` lines 200-206):
apply the pipeline functions in order; a raised `Filter` makes `send`
return with nothing delivered (`none`); any other raised exception
replaces the item and stops the iteration. -/
def runPipeline : List (CItem → TRes) → CItem → Option CItem
  | [], i => some i
  | f :: fs, i =>
    match f i with
    | .ok i' => runPipeline fs i'
    | .filterR => none
    | .errR e => some (.exc e)

/-- State of a `Channel` (`vanilla.py` lines 181-188).  `waiters` holds the
ids of parked tasks (`registered` greenlets); the deques are modelled as
lists with the head at the front. -/
structure Chan where
  closed : Bool
  pipeline : List (CItem → TRes)
  items : List CItem
  waiters : List Nat

/-- Externally visible effect of one `Channel.send` call. -/
inductive SendEff where
  | raisedClosed : SendEff
  | filtered : SendEff
  | buffered : SendEff
  | switched : Nat → CItem → SendEff
  | thrown : Nat → Exc → SendEff
deriving DecidableEq, Repr

/-- `Channel.send` (`vanilla.py` lines 195-216): raise `Closed` if the
channel is closed; run the pipeline (unless empty, or the item is a
`Closed` instance); on `Filter` return silently; if no waiter is parked,
buffer the item; otherwise pop the first waiter and deliver — exception
instances by `throw_to`, everything else (including `preserve_exception`
wrappers, which are not `Exception` instances) by `switch_to`. -/
def chanSend (c : Chan) (item : CItem) : Chan × SendEff :=
  if c.closed then (c, .raisedClosed)
  else
    let step : Option CItem :=
      if !c.pipeline.isEmpty && !(isClosedExc item) then
        runPipeline c.pipeline item
      else some item
    match step with
    | none => (c, .filtered)
    | some item' =>
      match c.waiters with
      | [] => ({ c with items := c.items ++ [item'] }, .buffered)
      | w :: ws =>
        match item' with
        | .exc e => ({ c with waiters := ws }, .thrown w e)
        | .val n => ({ c with waiters := ws }, .switched w (.val n))
        | .preserved e => ({ c with waiters := ws }, .switched w (.preserved e))

/-- Externally visible outcome of one `Channel.recv` call. -/
inductive RecvOut where
  | ret : Nat → RecvOut
  | retPreserved : Exc → RecvOut
  | raised : Exc → RecvOut
  | parkedTask : Nat → RecvOut
deriving DecidableEq, Repr

/-- `Channel.recv` (`vanilla.py` lines 218-237): if the buffer is non-empty,
pop its head — re-raise for a `preserve_exception` wrapper, raise for an
exception instance, return for a value.  Otherwise, with `timeout == 0`,
raise `Timeout` immediately.  Otherwise append the calling task to
`waiters` and pause on the hub. -/
def chanRecv (c : Chan) (timeout : Int) (self : Nat) : Chan × RecvOut :=
  match c.items with
  | i :: rest =>
    match i with
    | .preserved e => ({ c with items := rest }, .raised e)
    | .exc e => ({ c with items := rest }, .raised e)
    | .val n => ({ c with items := rest }, .ret n)
  | [] =>
    if timeout = 0 then (c, .raised .timeoutE)
    else ({ c with waiters := c.waiters ++ [self] }, .parkedTask self)

/-- `Channel.close` (`vanilla.py` lines 249-251): send a `Closed` instance
(delivered by `throw_to` to the first parked waiter, or buffered), then
mark the channel closed. -/
def chanClose (c : Chan) : Chan × SendEff :=
  let r := chanSend c (.exc .closed)
  ({ r.1 with closed := true }, r.2)

/-! ### `Recver.map` — `vanilla/message.py` lines 363-384

```python
@self.pipe
def recver(recver, sender):
    for item in recver:
        try:
            sender.send(f(item))
        except Exception, e:
            sender.send(e)
```

For each item arriving upstream the spawned task sends exactly one item
downstream: the transformed value if `f(item)` returns, and the raised
exception instance itself — `Filter` included, since `Filter` is an
`Exception` and the `except Exception` clause catches it — if it raises. -/

/-- The result of calling the user transform `f(item)` inside `map`'s loop:
a returned value or a raised exception (`Filter` is `raises .filterE`). -/
inductive TResV where
  | ok : Nat → TResV
  | raises : Exc → TResV

/-- What `map`'s loop body sends downstream for one upstream item (`some`
item; `none` would mean nothing is sent for the item, which this body
never produces): `vanilla/message.py` lines 377-383. -/
def mapEmit (f : Nat → TResV) (item : Nat) : Option CItem :=
  match f item with
  | .ok n => some (.val n)
  | .raises e => some (.exc e)

/-! ### `Hub.unregister` — `vanilla.py` lines 400-404

```python
def unregister(self, fd):
    if fd in self.registered:
        self.epoll.unregister(fd)
        self.registered[fd].close()
        del self.registered[fd]
```

`registered` is a dict `fd -> Channel`; we model its key set as a list and
record the sequence of side effects. -/

/-- A side effect performed by `Hub.unregister`. -/
inductive HubAct where
  | epollUnreg : Nat → HubAct
  | chanCloseAct : Nat → HubAct
  | delReg : Nat → HubAct
deriving DecidableEq, Repr

/-- `Hub.unregister` (`vanilla.py` lines 400-404): for a registered fd,
first remove the OS-level epoll registration, then close the fd's delivery
channel, then delete the fd from the `registered` map.  Returns the new
key set of `registered` and the ordered effect trace. -/
def hubUnregister (registered : List Nat) (fd : Nat) : List Nat × List HubAct :=
  if fd ∈ registered then
    (registered.filter (fun x => x ≠ fd),
     [.epollUnreg fd, .chanCloseAct fd, .delReg fd])
  else (registered, [])

/-! ### `Scheduler` — `vanilla.py` lines 496-533

```python
class Scheduler(object):
    Item = collections.namedtuple('Item', ['due', 'action', 'args'])

    def __init__(self):
        self.count = 0
        self.queue = []
        self.removed = {}

    def add(self, delay, action, *args):
        due = time.time() + (delay / 1000.0)
        item = self.Item(due, action, args)
        heapq.heappush(self.queue, item)
        self.count += 1
        return item

    def __len__(self):
        return self.count

    def remove(self, item):
        self.removed[item] = True
        self.count -= 1

    def prune(self):
        while True:
            if self.queue[0] not in self.removed:
                break
            item = heapq.heappop(self.queue)
            del self.removed[item]

    def timeout(self):
        self.prune()
        return self.queue[0].due - time.time()

    def pop(self):
        self.prune()
        item = heapq.heappop(self.queue)
        self.count -= 1
        return item.action, item.args
```

The binary min-heap `queue` is modelled by a list kept sorted on `due`
(`heappush` = ordered insert, `heappop` = take the head); the `removed`
tombstone dict is modelled by its key list.  `prune` faults with an
`IndexError` when it inspects `queue[0]` of an empty queue; that fault is
the `none` result. -/

/-- A timer item: absolute due time (milliseconds) and an identifier for
`(action, args)`.  Python's namedtuples compare by value, which this
`DecidableEq` mirrors. -/
structure SItem where
  due : Int
  action : Nat
deriving DecidableEq, Repr

/-- Scheduler state: the `count` of live entries, the min-heap `queue`
(a list sorted on `due`), and the tombstone set `removed`. -/
structure Scheduler where
  count : Int
  queue : List SItem
  removed : List SItem
deriving DecidableEq, Repr

/-- The empty scheduler (`Scheduler.__init__`). -/
def schedEmpty : Scheduler := ⟨0, [], []⟩

/-- `heapq.heappush` on the sorted-list model: insert keeping the list
sorted on `due`. -/
def insertSorted (i : SItem) : List SItem → List SItem
  | [] => [i]
  | j :: rest => if i.due ≤ j.due then i :: j :: rest else j :: insertSorted i rest

/-- `Scheduler.add` (lines 504-509): build the item with
`due = now + delay`, push it, bump `count`, and return it. -/
def schedAdd (s : Scheduler) (now delay : Int) (action : Nat) : SItem × Scheduler :=
  let item : SItem := ⟨now + delay, action⟩
  (item, { s with queue := insertSorted item s.queue, count := s.count + 1 })

/-- `Scheduler.remove` (lines 514-516): tombstone the item and decrement
`count`.  (Legal call sequences only remove an item that is currently live,
so the tombstone list stays duplicate-free, matching the dict.) -/
def schedRemove (s : Scheduler) (item : SItem) : Scheduler :=
  { s with removed := item :: s.removed, count := s.count - 1 }

/-- `Scheduler.prune` (lines 518-523): discard tombstoned items from the
top of the heap, deleting each from the tombstone set, until the top is
live.  Accessing `queue[0]` on an empty queue raises `IndexError`, which is
the `none` result.  On success returns the live head, the rest of the
queue, and the remaining tombstones. -/
def prune : List SItem → List SItem → Option (SItem × List SItem × List SItem)
  | [], _ => none
  | i :: q, removed =>
    if i ∈ removed then prune q (removed.erase i)
    else some (i, q, removed)

/-- `Scheduler.timeout` (lines 525-527): prune, then report
`queue[0].due - time.time()` without changing `count`. -/
def schedTimeout (s : Scheduler) (now : Int) : Option (Int × Scheduler) :=
  match prune s.queue s.removed with
  | none => none
  | some (i, q, r) =>
    some (i.due - now, { s with queue := i :: q, removed := r })

/-- `Scheduler.pop` (lines 529-533): prune, pop the heap head, decrement
`count`, and return the item. -/
def schedPop (s : Scheduler) : Option (SItem × Scheduler) :=
  match prune s.queue s.removed with
  | none => none
  | some (i, q, r) =>
    some (i, { count := s.count - 1, queue := q, removed := r })

/-! ### `Hub.pause` — `vanilla.py` lines 355-373

```python
def pause(self, timeout=-1):
    if timeout > -1:
        item = self.scheduled.add(
            timeout, getcurrent(), Timeout('timeout: %s' % timeout))

    resume = self.loop.switch()

    if timeout > -1:
        if isinstance(resume, Timeout):
            raise resume

        # since we didn't timeout, remove ourselves from scheduled
        self.scheduled.remove(item)

    # TODO: clean up stopped handling here
    if self.stopped:
        raise Closed("closed")

    return resume
```

`self.loop.switch()` either returns the value the resumer delivered
(`switch_to`, or the main loop running the fired timer item, whose `args`
is the armed `Timeout` instance) or raises the exception a `throw_to`
delivered.  The scheduler threading below covers exactly the `add` and
`remove` calls that `pause` itself performs; the `pop` that fires the
timer happens in the hub main loop, outside `pause`. -/

/-- A value deliverable to a paused task: the armed timer's `Timeout`
instance, or an ordinary value. -/
inductive PItem where
  | timeoutMark : PItem
  | pval : Nat → PItem
deriving DecidableEq, Repr

/-- How `self.loop.switch()` resumes: with a delivered value (including the
`Timeout` instance delivered when the armed timer fires), or by raising a
thrown-in exception. -/
inductive Resume where
  | switched : PItem → Resume
  | thrown : Exc → Resume
deriving DecidableEq, Repr

/-- Outcome of a `Hub.pause` call. -/
inductive PauseOut where
  | ret : PItem → PauseOut
  | raisedP : Exc → PauseOut
deriving DecidableEq, Repr

/-- `Hub.pause` (lines 355-373).  `now` is the clock at the `add` call,
`act` identifies the armed `(task, Timeout)` payload, `resume` is what
`self.loop.switch()` did, `stopped` is the hub's stopped flag at
resumption.  Returns the outcome and the scheduler as mutated by `pause`'s
own `add`/`remove` calls. -/
def hubPause (s : Scheduler) (now timeout : Int) (act : Nat)
    (resume : Resume) (stopped : Bool) : PauseOut × Scheduler :=
  if timeout > -1 then
    -- line 357: item = self.scheduled.add(timeout, getcurrent(), Timeout(...))
    let armed := schedAdd s now timeout act
    match resume with
    | .thrown e =>
      -- loop.switch() raised; nothing after it runs
      (.raisedP e, armed.2)
    | .switched i =>
      if i = .timeoutMark then
        -- line 364: raise resume
        (.raisedP .timeoutE, armed.2)
      else
        -- line 367: self.scheduled.remove(item)
        let s2 := schedRemove armed.2 armed.1
        -- lines 370-373
        if stopped then (.raisedP .closed, s2) else (.ret i, s2)
  else
    match resume with
    | .thrown e => (.raisedP e, s)
    | .switched i =>
      if stopped then (.raisedP .closed, s) else (.ret i, s)

/-! ### Scheduler operation traces

For the tombstone-correctness and length claims we run the scheduler
through arbitrary sequences of its public operations.  The runner carries
two ghost fields invisible to the code: `seen`, every item `add` has ever
returned, and `pops`, every item `pop` has returned.  A *legal* sequence
is one the runtime can actually produce: `add` mints a fresh item (the
`Item` namedtuple contains the freshly created greenlet/`Timeout`
instance, so two adds never build equal tuples), `remove` is called only
with an item previously returned by `add` that is still pending (this is
the only way `Hub.pause` and its callers use it), and `timeout`/`pop` are
called only when the scheduler reports itself non-empty with at least one
live entry. -/

/-- A public `Scheduler` operation. -/
inductive SOp where
  | add : Int → Int → Nat → SOp
  | remove : SItem → SOp
  | pop : SOp
  | timeout : Int → SOp
deriving DecidableEq, Repr

/-- Runner state: the scheduler plus the ghost history of minted and
popped items.  `faulted` records an `IndexError` from `prune`, which a
legal trace never triggers. -/
structure SchedRun where
  sched : Scheduler
  seen : List SItem
  pops : List SItem
  faulted : Bool
deriving Repr

/-- The runner's initial state: an empty scheduler and no history. -/
def initRun : SchedRun := ⟨schedEmpty, [], [], false⟩

/-- Apply one scheduler operation to the runner state. -/
def applySOp (st : SchedRun) (op : SOp) : SchedRun :=
  match op with
  | .add now delay act =>
    let r := schedAdd st.sched now delay act
    { st with sched := r.2, seen := r.1 :: st.seen }
  | .remove item => { st with sched := schedRemove st.sched item }
  | .pop =>
    match schedPop st.sched with
    | none => { st with faulted := true }
    | some (i, s') => { st with sched := s', pops := st.pops ++ [i] }
  | .timeout now =>
    match schedTimeout st.sched now with
    | none => { st with faulted := true }
    | some (_, s') => { st with sched := s' }

/-- Run a sequence of scheduler operations. -/
def runSOps (st : SchedRun) (ops : List SOp) : SchedRun :=
  ops.foldl applySOp st

/-- Legality of one operation at a runner state (see the section header). -/
def LegalOp (st : SchedRun) : SOp → Prop
  | .add now delay act => (⟨now + delay, act⟩ : SItem) ∉ st.seen
  | .remove item => item ∈ st.sched.queue ∧ item ∉ st.sched.removed
  | .pop => ∃ i, i ∈ st.sched.queue ∧ i ∉ st.sched.removed
  | .timeout _ => ∃ i, i ∈ st.sched.queue ∧ i ∉ st.sched.removed

/-- An item is dead for the runner when it has been minted by `add` and is
now tombstoned or gone from the heap: from then on its action can never
run. -/
def deadItem (st : SchedRun) (it : SItem) : Prop :=
  it ∈ st.seen ∧ (it ∈ st.sched.removed ∨ it ∉ st.sched.queue)

/-- The runner invariant: the heap has no duplicate entries, tombstones are
pending heap entries, every heap or popped item was minted by `add`, popped
items have left the heap, and `count` is the number of live entries. -/
def WFRun (st : SchedRun) : Prop :=
  st.sched.queue.Nodup ∧
  st.sched.removed.Nodup ∧
  (∀ x ∈ st.sched.removed, x ∈ st.sched.queue) ∧
  (∀ x ∈ st.sched.queue, x ∈ st.seen) ∧
  (∀ x ∈ st.pops, x ∈ st.seen) ∧
  (∀ x ∈ st.pops, x ∉ st.sched.queue) ∧
  st.sched.count = (st.sched.queue.length : Int) - st.sched.removed.length

/-- A legal operation sequence from a runner state. -/
inductive LegalTrace : SchedRun → List SOp → Prop
  | nil (st : SchedRun) : LegalTrace st []
  | cons {st : SchedRun} {op : SOp} {ops : List SOp} :
      LegalOp st op → LegalTrace (applySOp st op) ops →
      LegalTrace st (op :: ops)

/-- Number of `add` operations in a trace. -/
def countAdds : List SOp → Int
  | [] => 0
  | .add _ _ _ :: ops => countAdds ops + 1
  | _ :: ops => countAdds ops

/-- Number of `remove` operations in a trace. -/
def countRemoves : List SOp → Int
  | [] => 0
  | .remove _ :: ops => countRemoves ops + 1
  | _ :: ops => countRemoves ops

/-- Number of `pop` operations in a trace. -/
def countPops : List SOp → Int
  | [] => 0
  | .pop :: ops => countPops ops + 1
  | _ :: ops => countPops ops

/-! ### `Queue` — `vanilla/message.py` lines 413-483

The middle task of a buffered queue of capacity `size`:

```python
def main(upstream, downstream, size):
    queue = collections.deque()
    while True:
        if downstream.halted:
            upstream.close()
            return
        watch = []
        if queue:
            watch.append(downstream)
        else:
            if upstream.halted:
                downstream.close()
                return
        if not upstream.halted and len(queue) < size:
            watch.append(upstream)
        try:
            ch, item = hub.select(watch)
        except vanilla.exception.Halt:
            continue
        if ch == upstream:
            queue.append(item)
        elif ch == downstream:
            item = queue.popleft()
            downstream.send(item)
```

One loop iteration either exits at one of the two `return`s or acts on the
`select` outcome, which can only name an end that was in `watch`:
`upstream` fires only if `not upstream.halted and len(queue) < size`,
`downstream` only if the buffer is non-empty.  The environment can halt
either end between iterations (the other side closing or being
abandoned). -/

/-- State of the queue middle task: the internal buffer, the two ends'
halted flags, and whether `main` has returned. -/
structure QSt where
  buffer : List Nat
  upHalted : Bool
  downHalted : Bool
  done : Bool
deriving DecidableEq, Repr

/-- One event driving the queue middle task: the environment halting an
end, or one loop iteration whose `select` resolves to the upstream end
(with a received item), to the downstream end, or to a raised `Halt`. -/
inductive QEv where
  | upHalts : QEv
  | downHalts : QEv
  | selUp : Nat → QEv
  | selDown : QEv
  | selHalt : QEv
deriving DecidableEq, Repr

/-- One step of `Queue.main` under an event.  The two top-of-loop exits
(`downstream.halted`; empty buffer with `upstream.halted`) are checked
before the select outcome is applied, exactly as in the source; a select
outcome that names an end not in the current watch set cannot occur and
leaves the state unchanged. -/
def qstep (size : Nat) (s : QSt) (e : QEv) : QSt :=
  if s.done then s
  else
    match e with
    | .upHalts => { s with upHalted := true }
    | .downHalts => { s with downHalted := true }
    | .selHalt => s
    | .selUp i =>
      if s.downHalted then { s with done := true }
      else if s.buffer.isEmpty && s.upHalted then { s with done := true }
      else if !s.upHalted && s.buffer.length < size then
        { s with buffer := s.buffer ++ [i] }
      else s
    | .selDown =>
      if s.downHalted then { s with done := true }
      else if s.buffer.isEmpty && s.upHalted then { s with done := true }
      else if !s.buffer.isEmpty then { s with buffer := s.buffer.tail }
      else s

/-- Run the queue middle task from its initial state under a list of
events. -/
def qrun (size : Nat) (evs : List QEv) : QSt :=
  evs.foldl (qstep size) ⟨[], false, false, false⟩

/-! ## Lemmas about the heap model -/

/-- Membership in the sorted-insert model of `heappush`. -/
theorem mem_insertSorted {i x : SItem} :
    ∀ {l : List SItem}, x ∈ insertSorted i l ↔ x = i ∨ x ∈ l := by
  intro l
  induction l with
  | nil => simp [insertSorted]
  | cons j rest ih =>
    by_cases h : i.due ≤ j.due
    · simp [insertSorted, h]
    · simp only [insertSorted, if_neg h, List.mem_cons, ih]
      tauto

/-- `heappush` of a fresh item preserves heap distinctness. -/
theorem insertSorted_nodup {i : SItem} :
    ∀ {l : List SItem}, l.Nodup → i ∉ l → (insertSorted i l).Nodup := by
  intro l
  induction l with
  | nil => simp [insertSorted]
  | cons j rest ih =>
    intro hnd hni
    rcases List.nodup_cons.mp hnd with ⟨hjr, hrest⟩
    by_cases h : i.due ≤ j.due
    · simp only [insertSorted, if_pos h]
      exact List.nodup_cons.mpr ⟨by simp [hni], hnd⟩
    · simp only [insertSorted, if_neg h]
      refine List.nodup_cons.mpr ⟨?_, ih hrest (fun hm => hni (List.mem_cons_of_mem _ hm))⟩
      intro hj
      rcases mem_insertSorted.mp hj with rfl | hj'
      · exact hni (List.mem_cons_self _ _)
      · exact hjr hj'

/-- `heappush` grows the heap by one entry. -/
theorem length_insertSorted (i : SItem) :
    ∀ (l : List SItem), (insertSorted i l).length = l.length + 1 := by
  intro l
  induction l with
  | nil => simp [insertSorted]
  | cons j rest ih =>
    by_cases h : i.due ≤ j.due
    · simp [insertSorted, h]
    · simp [insertSorted, h, ih]

/-- A successful `prune` never returns an item unless the queue was
non-empty; its returned head comes from the queue. -/
theorem prune_head_mem :
    ∀ (q r : List SItem) (i : SItem) (q' r' : List SItem),
      prune q r = some (i, q', r') → i ∈ q := by
  intro q
  induction q with
  | nil => intro r i q' r' h; simp [prune] at h
  | cons j rest ih =>
    intro r i q' r' h
    by_cases hj : j ∈ r
    · simp only [prune, if_pos hj] at h
      exact List.mem_cons_of_mem _ (ih _ _ _ _ h)
    · simp only [prune, if_neg hj, Option.some.injEq] at h
      obtain ⟨rfl, -, -⟩ := h
      exact List.mem_cons_self _ _

/-- Everything `prune` does, under the runner invariant on its inputs:
the returned head is a live former queue entry, the remaining queue and
tombstone set shrink consistently, the live count is conserved up to the
head, and a tombstone that `prune` consumed is gone from the remaining
queue. -/
theorem prune_spec :
    ∀ (q r : List SItem), q.Nodup → r.Nodup → (∀ x ∈ r, x ∈ q) →
      ∀ (i : SItem) (q' r' : List SItem), prune q r = some (i, q', r') →
        i ∈ q ∧ i ∉ q' ∧ q'.Nodup ∧ (∀ x ∈ q', x ∈ q) ∧
        i ∉ r' ∧ r'.Nodup ∧ (∀ x ∈ r', x ∈ r) ∧ (∀ x ∈ r', x ∈ q') ∧
        ((q.length : Int) - r.length = (q'.length : Int) + 1 - r'.length) ∧
        (∀ x ∈ r, x ∉ r' → x ∉ i :: q') := by
  intro q
  induction q with
  | nil => intro r _ _ _ i q' r' h; simp [prune] at h
  | cons j rest ih =>
    intro r hq hr hsub i q' r' h
    rcases List.nodup_cons.mp hq with ⟨hjrest, hrest⟩
    by_cases hj : j ∈ r
    · simp only [prune, if_pos hj] at h
      have hsub' : ∀ x ∈ r.erase j, x ∈ rest := by
        intro x hx
        have hxr : x ∈ r := List.mem_of_mem_erase hx
        have hxj : x ≠ j := by
          intro hxe; subst hxe
          exact (List.Nodup.not_mem_erase hr) hx
        rcases List.mem_cons.mp (hsub x hxr) with h1 | h1
        · exact absurd h1 hxj
        · exact h1
      obtain ⟨hiq, hinq, hq2n, hq2sub, hir, hr2n, hr2sub, hrq2, hcount, hgone⟩ :=
        ih (r.erase j) hrest (List.Nodup.erase j hr) hsub' i q' r' h
      refine ⟨List.mem_cons_of_mem _ hiq, hinq, hq2n,
        fun x hx => List.mem_cons_of_mem _ (hq2sub x hx), hir, hr2n,
        fun x hx => List.mem_of_mem_erase (hr2sub x hx), hrq2, ?_, ?_⟩
      · have h2 := List.length_erase_of_mem hj
        have h3 := List.length_pos_of_mem hj
        simp only [List.length_cons]
        omega
      · intro x hx hxr'
        rcases eq_or_ne x j with rfl | hxj
        · intro hmem
          rcases List.mem_cons.mp hmem with rfl | hmem'
          · exact hjrest hiq
          · exact hjrest (hq2sub _ hmem')
        · exact hgone x ((List.mem_erase_of_ne hxj).mpr hx) hxr'
    · simp only [prune, if_neg hj, Option.some.injEq] at h
      obtain ⟨rfl, rfl, rfl⟩ := h
      refine ⟨List.mem_cons_self _ _, hjrest, hrest, fun x hx => List.mem_cons_of_mem _ hx,
        hj, hr, fun x hx => hx, ?_, by simp, ?_⟩
      · intro x hx
        rcases List.mem_cons.mp (hsub x hx) with rfl | h1
        · exact absurd hx hj
        · exact h1
      · intro x hx hxr'
        exact absurd hx hxr'

/-- When every heap entry is tombstoned, `prune` runs off the end of the
heap and faults (`queue[0]` raises `IndexError`). -/
theorem prune_none_of_all_removed :
    ∀ (q r : List SItem), q.Nodup → (∀ x ∈ q, x ∈ r) → prune q r = none := by
  intro q
  induction q with
  | nil => intro r _ _; rfl
  | cons j rest ih =>
    intro r hq hall
    rcases List.nodup_cons.mp hq with ⟨hjrest, hrest⟩
    have hj : j ∈ r := hall j (List.mem_cons_self _ _)
    simp only [prune, if_pos hj]
    refine ih _ hrest ?_
    intro x hx
    have hxj : x ≠ j := fun he => hjrest (he ▸ hx)
    exact (List.mem_erase_of_ne hxj).mpr (hall x (List.mem_cons_of_mem _ hx))

/-- As long as one live entry remains, `prune` succeeds. -/
theorem prune_isSome_of_live :
    ∀ (q r : List SItem), r.Nodup → ∀ it, it ∈ q → it ∉ r →
      (prune q r).isSome := by
  intro q
  induction q with
  | nil => intro r _ it h; simp at h
  | cons j rest ih =>
    intro r hr it hit hitr
    by_cases hj : j ∈ r
    · simp only [prune, if_pos hj]
      have hne : it ≠ j := fun he => hitr (he ▸ hj)
      have hit' : it ∈ rest := by
        rcases List.mem_cons.mp hit with rfl | h1
        · exact absurd hj hitr
        · exact h1
      exact ih _ (List.Nodup.erase j hr) it hit'
        (fun hm => hitr (List.mem_of_mem_erase hm))
    · simp [prune, hj]

/-- One legal scheduler operation preserves the runner invariant, and keeps
every dead unpopped item dead and unpopped.  This is the heart of tombstone
correctness: `remove`d items stay out of `pop`'s results forever. -/
theorem applySOp_preserves (st : SchedRun) (op : SOp)
    (hwf : WFRun st) (hop : LegalOp st op) :
    WFRun (applySOp st op) ∧
    (∀ it, deadItem st it → it ∉ st.pops →
      deadItem (applySOp st op) it ∧ it ∉ (applySOp st op).pops) := by
  obtain ⟨hqn, hrn, hrq, hqs, hps, hpq, hcnt⟩ := hwf
  cases op with
  | add now delay act =>
    have hfresh : (⟨now + delay, act⟩ : SItem) ∉ st.seen := hop
    have hfq : (⟨now + delay, act⟩ : SItem) ∉ st.sched.queue :=
      fun hm => hfresh (hqs _ hm)
    constructor
    · refine ⟨insertSorted_nodup hqn hfq, hrn, ?_, ?_, ?_, ?_, ?_⟩
      · intro x hx
        exact mem_insertSorted.mpr (Or.inr (hrq x hx))
      · intro x hx
        rcases mem_insertSorted.mp hx with rfl | hx'
        · exact List.mem_cons_self _ _
        · exact List.mem_cons_of_mem _ (hqs x hx')
      · intro x hx
        exact List.mem_cons_of_mem _ (hps x hx)
      · intro x hx
        intro hm
        rcases mem_insertSorted.mp hm with rfl | hm'
        · exact hfresh (hps _ hx)
        · exact hpq x hx hm'
      · simp only [applySOp, schedAdd, length_insertSorted]
        push_cast
        omega
    · intro it hdead hpop
      obtain ⟨hseen, hdd⟩ := hdead
      refine ⟨⟨List.mem_cons_of_mem _ hseen, ?_⟩, hpop⟩
      rcases hdd with h1 | h1
      · exact Or.inl h1
      · refine Or.inr ?_
        intro hm
        rcases mem_insertSorted.mp hm with rfl | hm'
        · exact hfresh hseen
        · exact h1 hm'
  | remove item =>
    obtain ⟨hiq, hir⟩ := hop
    constructor
    · refine ⟨hqn, List.nodup_cons.mpr ⟨hir, hrn⟩, ?_, hqs, hps, hpq, ?_⟩
      · intro x hx
        rcases List.mem_cons.mp hx with rfl | hx'
        · exact hiq
        · exact hrq x hx'
      · simp only [applySOp, schedRemove, List.length_cons]
        push_cast
        omega
    · intro it hdead hpop
      obtain ⟨hseen, hdd⟩ := hdead
      refine ⟨⟨hseen, ?_⟩, hpop⟩
      rcases hdd with h1 | h1
      · exact Or.inl (List.mem_cons_of_mem _ h1)
      · exact Or.inr h1
  | pop =>
    obtain ⟨live, hlq, hlr⟩ := hop
    have hsome := prune_isSome_of_live st.sched.queue st.sched.removed hrn live hlq hlr
    rcases hp : prune st.sched.queue st.sched.removed with - | ⟨i, q', r'⟩
    · rw [hp] at hsome; simp at hsome
    · obtain ⟨hiq, hinq, hq2n, hq2sub, hir, hr2n, hr2sub, hrq2, hcount, hgone⟩ :=
        prune_spec st.sched.queue st.sched.removed hqn hrn hrq i q' r' hp
      have happ : applySOp st .pop =
          { st with sched := ⟨st.sched.count - 1, q', r'⟩, pops := st.pops ++ [i] } := by
        simp [applySOp, schedPop, hp]
      rw [happ]
      constructor
      · refine ⟨hq2n, hr2n, hrq2, ?_, ?_, ?_, ?_⟩
        · intro x hx
          exact hqs x (hq2sub x hx)
        · intro x hx
          rcases List.mem_append.mp hx with h1 | h1
          · exact hps x h1
          · simp at h1; subst h1; exact hqs _ hiq
        · intro x hx
          rcases List.mem_append.mp hx with h1 | h1
          · exact fun hm => hpq x h1 (hq2sub x hm)
          · simp at h1; subst h1; exact hinq
        · simp only
          omega
      · intro it hdead hpop
        obtain ⟨hseen, hdd⟩ := hdead
        have hine : i ≠ it := by
          rcases hdd with h1 | h1
          · by_cases h2 : it ∈ r'
            · exact fun he => hir (he ▸ h2)
            · intro he
              exact hgone it h1 h2 (he ▸ List.mem_cons_self _ _)
          · exact fun he => h1 (he ▸ hiq)
        refine ⟨⟨hseen, ?_⟩, ?_⟩
        · rcases hdd with h1 | h1
          · by_cases h2 : it ∈ r'
            · exact Or.inl h2
            · refine Or.inr ?_
              intro hm
              exact hgone it h1 h2 (List.mem_cons_of_mem _ hm)
          · exact Or.inr (fun hm => h1 (hq2sub it hm))
        · intro hm
          rcases List.mem_append.mp hm with h1 | h1
          · exact hpop h1
          · simp at h1; exact hine h1.symm
  | timeout now =>
    obtain ⟨live, hlq, hlr⟩ := hop
    have hsome := prune_isSome_of_live st.sched.queue st.sched.removed hrn live hlq hlr
    rcases hp : prune st.sched.queue st.sched.removed with - | ⟨i, q', r'⟩
    · rw [hp] at hsome; simp at hsome
    · obtain ⟨hiq, hinq, hq2n, hq2sub, hir, hr2n, hr2sub, hrq2, hcount, hgone⟩ :=
        prune_spec st.sched.queue st.sched.removed hqn hrn hrq i q' r' hp
      have happ : applySOp st (.timeout now) =
          { st with sched := { st.sched with queue := i :: q', removed := r' } } := by
        simp [applySOp, schedTimeout, hp]
      rw [happ]
      constructor
      · refine ⟨List.nodup_cons.mpr ⟨hinq, hq2n⟩, hr2n, ?_, ?_, hps, ?_, ?_⟩
        · intro x hx
          exact List.mem_cons_of_mem _ (hrq2 x hx)
        · intro x hx
          rcases List.mem_cons.mp hx with rfl | hx'
          · exact hqs _ hiq
          · exact hqs x (hq2sub x hx')
        · intro x hx
          intro hm
          rcases List.mem_cons.mp hm with rfl | hm'
          · exact hpq x hx hiq
          · exact hpq x hx (hq2sub x hm')
        · simp only [List.length_cons]
          push_cast
          omega
      · intro it hdead hpop
        obtain ⟨hseen, hdd⟩ := hdead
        refine ⟨⟨hseen, ?_⟩, hpop⟩
        rcases hdd with h1 | h1
        · by_cases h2 : it ∈ r'
          · exact Or.inl h2
          · exact Or.inr (hgone it h1 h2)
        · refine Or.inr ?_
          intro hm
          rcases List.mem_cons.mp hm with rfl | hm'
          · exact h1 hiq
          · exact h1 (hq2sub it hm')

/-- The runner invariant holds along every legal trace. -/
theorem runSOps_wf :
    ∀ (ops : List SOp) (st : SchedRun), WFRun st → LegalTrace st ops →
      WFRun (runSOps st ops) := by
  intro ops
  induction ops with
  | nil => intro st hwf _; exact hwf
  | cons op rest ih =>
    intro st hwf htr
    cases htr with
    | cons hop htr' =>
      exact ih _ ((applySOp_preserves st op hwf hop).1) htr'

/-- A dead, not-yet-popped item stays dead and unpopped along every legal
trace. -/
theorem runSOps_dead :
    ∀ (ops : List SOp) (st : SchedRun) (it : SItem), WFRun st → LegalTrace st ops →
      deadItem st it → it ∉ st.pops →
      deadItem (runSOps st ops) it ∧ it ∉ (runSOps st ops).pops := by
  intro ops
  induction ops with
  | nil => intro st it hwf _ hdead hpop; exact ⟨hdead, hpop⟩
  | cons op rest ih =>
    intro st it hwf htr hdead hpop
    cases htr with
    | cons hop htr' =>
      obtain ⟨hwf', hkeep⟩ := applySOp_preserves st op hwf hop
      obtain ⟨hdead', hpop'⟩ := hkeep it hdead hpop
      exact ih _ it hwf' htr' hdead' hpop'

/-- Along a legal trace, an item handed to `remove` never appears among the
items `pop` returns. -/
theorem runSOps_remove_not_popped :
    ∀ (ops : List SOp) (st : SchedRun), WFRun st → LegalTrace st ops →
      ∀ it, SOp.remove it ∈ ops → it ∉ (runSOps st ops).pops := by
  intro ops
  induction ops with
  | nil => intro st _ _ it h; simp at h
  | cons op rest ih =>
    intro st hwf htr it hmem
    cases htr with
    | cons hop htr' =>
      obtain ⟨hwf', hkeep⟩ := applySOp_preserves st op hwf hop
      rcases List.mem_cons.mp hmem with rfl | hmem'
      · obtain ⟨hiq, hir⟩ := hop
        have hnp : it ∉ st.pops := fun hm => hwf.2.2.2.2.2.1 it hm hiq
        have hdead' : deadItem (applySOp st (.remove it)) it := by
          refine ⟨hwf.2.2.2.1 it hiq, Or.inl ?_⟩
          simp [applySOp, schedRemove]
        have hnp' : it ∉ (applySOp st (.remove it)).pops := by
          simpa [applySOp, schedRemove] using hnp
        exact (runSOps_dead rest _ it hwf' htr' hdead' hnp').2
      · exact ih _ hwf' htr' it hmem'

/-- `count` changes by `+1` on `add`, `-1` on `remove` and on `pop`, and is
untouched by `timeout`, along every legal trace. -/
theorem runSOps_count :
    ∀ (ops : List SOp) (st : SchedRun), WFRun st → LegalTrace st ops →
      (runSOps st ops).sched.count
        = st.sched.count + countAdds ops - countRemoves ops - countPops ops := by
  intro ops
  induction ops with
  | nil => intro st _ _; simp [runSOps, countAdds, countRemoves, countPops]
  | cons op rest ih =>
    intro st hwf htr
    cases htr with
    | cons hop htr' =>
      have hwf' := (applySOp_preserves st op hwf hop).1
      have hrec := ih _ hwf' htr'
      have hrun : runSOps st (op :: rest) = runSOps (applySOp st op) rest := rfl
      rw [hrun, hrec]
      cases op with
      | add now delay act =>
        simp only [applySOp, schedAdd, countAdds, countRemoves, countPops]
        omega
      | remove item =>
        simp only [applySOp, schedRemove, countAdds, countRemoves, countPops]
        omega
      | pop =>
        obtain ⟨live, hlq, hlr⟩ := hop
        have hsome := prune_isSome_of_live st.sched.queue st.sched.removed
          hwf.2.1 live hlq hlr
        rcases hp : prune st.sched.queue st.sched.removed with - | ⟨i, q', r'⟩
        · rw [hp] at hsome; simp at hsome
        · have happ : (applySOp st .pop).sched.count = st.sched.count - 1 := by
            simp [applySOp, schedPop, hp]
          rw [happ]
          simp only [countAdds, countRemoves, countPops]
          omega
      | timeout now =>
        obtain ⟨live, hlq, hlr⟩ := hop
        have hsome := prune_isSome_of_live st.sched.queue st.sched.removed
          hwf.2.1 live hlq hlr
        rcases hp : prune st.sched.queue st.sched.removed with - | ⟨i, q', r'⟩
        · rw [hp] at hsome; simp at hsome
        · have happ : (applySOp st (.timeout now)).sched.count = st.sched.count := by
            simp [applySOp, schedTimeout, hp]
          rw [happ]
          simp only [countAdds, countRemoves, countPops]

/-- A legal trace restricts to its initial segment. -/
theorem legalTrace_take :
    ∀ (pre suf : List SOp) (st : SchedRun), LegalTrace st (pre ++ suf) →
      LegalTrace st pre := by
  intro pre
  induction pre with
  | nil => intro suf st _; exact .nil st
  | cons op rest ih =>
    intro suf st htr
    cases htr with
    | cons hop htr' => exact .cons hop (ih suf _ htr')

/-- The initial runner state satisfies the invariant. -/
theorem wf_initRun : WFRun initRun := by
  refine ⟨?_, ?_, ?_, ?_, ?_, ?_, ?_⟩ <;> simp [initRun, schedEmpty]

/-! ## Helper lemmas for the rendezvous machine and the queue task -/

/-- One step of the rendezvous machine conserves the items: the received
list, the item held by a parked sender, and the pending list always
concatenate to the original send sequence. -/
theorem pipeStep_inflight (s : PipeSt) (b : Bool) :
    (pipeStep s b).received ++ (pipeStep s b).parked.toList ++ (pipeStep s b).pending
      = s.received ++ s.parked.toList ++ s.pending := by
  rcases s with ⟨pending, parked, waiting, recd⟩
  cases b <;> cases parked <;> cases pending <;> cases waiting <;>
    simp [pipeStep, Option.toList]

/-- Conservation extends to whole schedules. -/
theorem pipeRun_inflight :
    ∀ (sched : List Bool) (s : PipeSt),
      (sched.foldl pipeStep s).received ++ (sched.foldl pipeStep s).parked.toList
          ++ (sched.foldl pipeStep s).pending
        = s.received ++ s.parked.toList ++ s.pending := by
  intro sched
  induction sched with
  | nil => intro s; rfl
  | cons b rest ih =>
    intro s
    calc (List.foldl pipeStep (pipeStep s b) rest).received
          ++ (List.foldl pipeStep (pipeStep s b) rest).parked.toList
          ++ (List.foldl pipeStep (pipeStep s b) rest).pending
        = (pipeStep s b).received ++ (pipeStep s b).parked.toList
            ++ (pipeStep s b).pending := ih (pipeStep s b)
      _ = s.received ++ s.parked.toList ++ s.pending := pipeStep_inflight s b

/-- One step of the queue middle task keeps the buffer within the capacity
bound. -/
theorem qstep_buffer_le (size : Nat) (s : QSt) (e : QEv)
    (h : s.buffer.length ≤ size) : (qstep size s e).buffer.length ≤ size := by
  rcases s with ⟨buffer, uh, dh, dn⟩
  cases dn <;> cases e <;> simp only [qstep] <;> split_ifs <;>
    simp_all [List.length_tail] <;> omega

/-- The capacity bound extends to whole event sequences. -/
theorem qrun_buffer_le (size : Nat) :
    ∀ (evs : List QEv) (s : QSt), s.buffer.length ≤ size →
      (evs.foldl (qstep size) s).buffer.length ≤ size := by
  intro evs
  induction evs with
  | nil => intro s h; exact h
  | cons e rest ih =>
    intro s h
    exact ih (qstep size s e) (qstep_buffer_le size s e h)

/-! ## The claims -/

/-- C1: for an unbuffered pipe with one Sender and one Recver, every
successful `recv` returns exactly the item produced by the paired `send`:
under every schedule, the delivered items, the item held by a parked
sender, and the still-unsent items concatenate — in order — to the
original send sequence, so no item is duplicated and none is lost. -/
theorem claim_C1_rendezvous_equivalence (xs : List Nat) (sched : List Bool) :
    (pipeRun xs sched).received ++ (pipeRun xs sched).parked.toList
        ++ (pipeRun xs sched).pending = xs := by
  have h := pipeRun_inflight sched
    { pending := xs, parked := none, recverWaiting := false, received := [] }
  simpa [pipeRun] using h

/-- C2, counterexample to the claim as stated: with the pipe closed (and
the other end live and parked), `ready` does not evaluate to a boolean at
all — it raises `Closed` — so it is not a pure boolean observation that is
false when the pipe is closed. -/
theorem claim_C2_ready_counterexample :
    endReady ⟨true, true, true⟩ = .raised .closed ∧
    ReadyRes.raised .closed ≠ .val false ∧
    ReadyRes.raised .closed ≠ .val true := by
  decide

/-- C2, amended: `ready` evaluates to `true` iff the pipe is not closed,
the other end is live, and the other end has a parked task; but it is not
a pure boolean observation — when the pipe is closed it raises `Closed`,
and when the pipe is open with the other end gone it raises `Abandoned`,
instead of returning `false`. -/
theorem claim_C2_ready_amended (e : EndState) :
    (endReady e = .val true ↔
      e.closed = false ∧ e.otherLive = true ∧ e.otherCurrent = true) ∧
    (e.closed = true → endReady e = .raised .closed) ∧
    (e.closed = false → e.otherLive = false → endReady e = .raised .abandoned) := by
  rcases e with ⟨c, l, cur⟩
  cases c <;> cases l <;> cases cur <;> simp [endReady]

/-- C2, witness for the amended theorem at a concrete end state: an open
pipe with a live, parked counterpart is `ready`, and a closed pipe raises
`Closed`. -/
theorem claim_C2_ready_amended_witness :
    endReady ⟨false, true, true⟩ = .val true ∧
    endReady ⟨true, true, false⟩ = .raised .closed :=
  ⟨(claim_C2_ready_amended ⟨false, true, true⟩).1.mpr ⟨rfl, rfl, rfl⟩,
   (claim_C2_ready_amended ⟨true, true, false⟩).2.1 rfl⟩

/-- C9: a queue of capacity `size > 0` never buffers more than `size`
items — the middle task only watches the upstream end while the buffer is
strictly below `size`, so every reachable state of the loop keeps
`len(queue) ≤ size`. -/
theorem claim_C9_queue_capacity (size : Nat) (evs : List QEv) (_hsize : 0 < size) :
    (qrun size evs).buffer.length ≤ size :=
  qrun_buffer_le size evs ⟨[], false, false, false⟩ (Nat.zero_le size)

/-- C9, witness: a capacity-1 queue fed two upstream items in a row holds
at most one of them. -/
theorem claim_C9_queue_capacity_witness :
    0 < 1 ∧ (qrun 1 [.selUp 4, .selUp 5]).buffer.length ≤ 1 :=
  ⟨Nat.one_pos, claim_C9_queue_capacity 1 [.selUp 4, .selUp 5] Nat.one_pos⟩

/-- C10: with an empty buffer, `Channel.recv(timeout=0)` raises `Timeout`
immediately — the channel state is untouched, no waiter is appended, the
hub is never consulted; with a non-empty buffer it pops the head,
returning a value, raising a buffered exception, or re-raising a buffered
preserved exception. -/
theorem claim_C10_channel_recv_zero (c : Chan) (self : Nat) :
    (c.items = [] → chanRecv c 0 self = (c, .raised .timeoutE)) ∧
    (∀ n rest, c.items = CItem.val n :: rest →
      chanRecv c 0 self = ({ c with items := rest }, .ret n)) ∧
    (∀ e rest, c.items = CItem.exc e :: rest →
      chanRecv c 0 self = ({ c with items := rest }, .raised e)) ∧
    (∀ e rest, c.items = CItem.preserved e :: rest →
      chanRecv c 0 self = ({ c with items := rest }, .raised e)) := by
  refine ⟨?_, ?_, ?_, ?_⟩
  · intro h; simp [chanRecv, h]
  · intro n rest h; simp [chanRecv, h]
  · intro e rest h; simp [chanRecv, h]
  · intro e rest h; simp [chanRecv, h]

/-- C10, witness: an empty channel raises `Timeout` on `recv(timeout=0)`
with its state unchanged; a channel buffering the value `3` returns it. -/
theorem claim_C10_channel_recv_zero_witness :
    chanRecv ⟨false, [], [], []⟩ 0 7 = (⟨false, [], [], []⟩, .raised .timeoutE) ∧
    chanRecv ⟨false, [], [CItem.val 3], []⟩ 0 7
      = (⟨false, [], [], []⟩, .ret 3) := by
  constructor
  · exact (claim_C10_channel_recv_zero ⟨false, [], [], []⟩ 7).1 rfl
  · have h := (claim_C10_channel_recv_zero ⟨false, [], [CItem.val 3], []⟩ 7).2.1 3 [] rfl
    simpa using h

/-- C3, counterexample to the claim as stated: if the armed timer fired
(the resume delivered the armed `Timeout` instance) while the hub's
`stopped` event was set, `pause` raises `Timeout`, not `Closed` — the
`isinstance(resume, Timeout)` check at line 363 runs before the `stopped`
check at line 370, so "whenever stopped is set at resumption, Closed is
raised" fails on that resume. -/
theorem claim_C3_pause_counterexample :
    (hubPause schedEmpty 0 0 7 (.switched .timeoutMark) true).1 = .raisedP .timeoutE ∧
    PauseOut.raisedP .timeoutE ≠ .raisedP .closed := by
  decide

/-- C3, amended: `pause` returns the value delivered on resumption when
the hub is not stopped, and raises `Closed` on resumption whenever
`stopped` is set — including on a resume that delivered a value — for
every resume that delivered anything other than the armed timer's
`Timeout` marker (which is raised as `Timeout` even when stopped, and a
thrown-in exception propagates as itself). -/
theorem claim_C3_pause_amended (s : Scheduler) (now timeout : Int) (act : Nat)
    (i : PItem) (stopped : Bool) (hi : i ≠ .timeoutMark) :
    (hubPause s now timeout act (.switched i) stopped).1
      = if stopped then .raisedP .closed else .ret i := by
  by_cases ht : timeout > -1 <;> cases stopped <;>
    simp [hubPause, ht, hi]

/-- C3, witness for the amended theorem: with `stopped` set, a resume
delivering the plain value `5` makes `pause(0)` raise `Closed`; with
`stopped` unset it returns the value. -/
theorem claim_C3_pause_amended_witness :
    (PItem.pval 5 ≠ .timeoutMark) ∧
    (hubPause schedEmpty 0 0 7 (.switched (.pval 5)) true).1 = .raisedP .closed ∧
    (hubPause schedEmpty 0 0 7 (.switched (.pval 5)) false).1 = .ret (.pval 5) := by
  refine ⟨by decide, ?_, ?_⟩
  · simpa using claim_C3_pause_amended schedEmpty 0 0 7 (.pval 5) true (by decide)
  · simpa using claim_C3_pause_amended schedEmpty 0 0 7 (.pval 5) false (by decide)

/-- C4, counterexample to the claim as stated: when the hub's `stopped`
event is set, a `pause(timeout=0)` resumed with a delivered value raises
`Closed` — neither of the claim's two permitted outcomes (the value, or
`Timeout` from the armed timer) occurs. -/
theorem claim_C4_pause_counterexample :
    (hubPause schedEmpty 0 0 7 (.switched (.pval 5)) true).1 = .raisedP .closed ∧
    PauseOut.raisedP .closed ≠ .ret (.pval 5) ∧
    PauseOut.raisedP .closed ≠ .raisedP .timeoutE := by
  decide

/-- C4, amended: for `pause(timeout=t)` with `t ≥ 0` on a hub that is not
stopped, exactly one of the two outcomes occurs — the delivered value is
returned (or a thrown-in exception is raised), or the armed timer's
`Timeout` is raised; and whenever a value arrives instead of the armed
timer's `Timeout` (stopped or not), the armed timer item is tombstoned in
the scheduler, so a subsequent `pop` never returns it.  (When `stopped` is
set, a delivered value produces `Closed` instead of being returned.) -/
theorem claim_C4_pause_timer_amended (s : Scheduler) (now t : Int) (act : Nat)
    (resume : Resume) (stopped : Bool)
    (ht : 0 ≤ t)
    (hq : s.queue.Nodup) (hr : s.removed.Nodup)
    (hsub : ∀ x ∈ s.removed, x ∈ s.queue)
    (hfresh : (⟨now + t, act⟩ : SItem) ∉ s.queue) :
    (stopped = false →
      (∀ e, resume = .thrown e →
        (hubPause s now t act resume stopped).1 = .raisedP e) ∧
      (resume = .switched .timeoutMark →
        (hubPause s now t act resume stopped).1 = .raisedP .timeoutE) ∧
      (∀ n, resume = .switched (.pval n) →
        (hubPause s now t act resume stopped).1 = .ret (.pval n))) ∧
    (∀ n, resume = .switched (.pval n) →
      (⟨now + t, act⟩ : SItem) ∈ (hubPause s now t act resume stopped).2.removed ∧
      (∀ j s3, schedPop (hubPause s now t act resume stopped).2 = some (j, s3) →
        j ≠ ⟨now + t, act⟩)) := by
  have harm : t > -1 := by omega
  constructor
  · intro hstop
    refine ⟨?_, ?_, ?_⟩
    · rintro e rfl
      simp [hubPause, harm]
    · rintro rfl
      simp [hubPause, harm]
    · rintro n rfl
      simp [hubPause, harm, hstop, schedAdd, schedRemove]
  · rintro n rfl
    have hstate : (hubPause s now t act (.switched (.pval n)) stopped).2
        = schedRemove (schedAdd s now t act).2 (schedAdd s now t act).1 := by
      cases stopped <;> simp [hubPause, harm]
    rw [hstate]
    have hitem : (schedAdd s now t act).1 = (⟨now + t, act⟩ : SItem) := rfl
    have hqueue : (schedRemove (schedAdd s now t act).2 (schedAdd s now t act).1).queue
        = insertSorted ⟨now + t, act⟩ s.queue := rfl
    have hremoved : (schedRemove (schedAdd s now t act).2 (schedAdd s now t act).1).removed
        = (⟨now + t, act⟩ : SItem) :: s.removed := rfl
    constructor
    · rw [hremoved]
      exact List.mem_cons_self _ _
    · intro j s3 hpop
      have hnr : (⟨now + t, act⟩ : SItem) ∉ s.removed :=
        fun hm => hfresh (hsub _ hm)
      have hq' : (insertSorted ⟨now + t, act⟩ s.queue).Nodup :=
        insertSorted_nodup hq hfresh
      have hr' : ((⟨now + t, act⟩ : SItem) :: s.removed).Nodup :=
        List.nodup_cons.mpr ⟨hnr, hr⟩
      have hsub' : ∀ x ∈ (⟨now + t, act⟩ : SItem) :: s.removed,
          x ∈ insertSorted ⟨now + t, act⟩ s.queue := by
        intro x hx
        rcases List.mem_cons.mp hx with rfl | hx'
        · exact mem_insertSorted.mpr (Or.inl rfl)
        · exact mem_insertSorted.mpr (Or.inr (hsub x hx'))
      rcases hpr : prune (insertSorted ⟨now + t, act⟩ s.queue)
          ((⟨now + t, act⟩ : SItem) :: s.removed) with - | ⟨i, q', r'⟩
      · rw [schedPop, hqueue, hremoved, hpr] at hpop
        simp at hpop
      · obtain ⟨hiq, hinq, hq2n, hq2sub, hir, hr2n, hr2sub, hrq2, hcount, hgone⟩ :=
          prune_spec _ _ hq' hr' hsub' i q' r' hpr
        rw [schedPop, hqueue, hremoved, hpr] at hpop
        simp only [Option.some.injEq, Prod.mk.injEq] at hpop
        obtain ⟨rfl, -⟩ := hpop
        by_cases hmem : (⟨now + t, act⟩ : SItem) ∈ r'
        · exact fun he => hir (he ▸ hmem)
        · intro he
          exact hgone _ (List.mem_cons_self _ _) hmem (he ▸ List.mem_cons_self _ _)

/-- C4, witness for the amended theorem: a `pause(0)` on an empty
scheduler, resumed with the value `5` before the timer fired, returns the
value and leaves the armed timer item tombstoned. -/
theorem claim_C4_pause_timer_amended_witness :
    (0 : Int) ≤ 0 ∧
    (hubPause schedEmpty 0 0 7 (.switched (.pval 5)) false).1 = .ret (.pval 5) ∧
    (⟨0, 7⟩ : SItem) ∈ (hubPause schedEmpty 0 0 7 (.switched (.pval 5)) false).2.removed := by
  have H := claim_C4_pause_timer_amended schedEmpty 0 0 7 (.switched (.pval 5)) false
    (by decide) (by decide) (by decide) (by simp [schedEmpty]) (by decide)
  refine ⟨by decide, (H.1 rfl).2.2 5 rfl, ?_⟩
  have h := (H.2 5 rfl).1
  simpa using h

/-- C5: along every legal sequence of scheduler operations, a timer item
passed to `remove()` before being popped is never returned by `pop()` (its
action never runs), and at every point of the sequence `len()` of the
scheduler equals items added minus items removed minus items popped. -/
theorem claim_C5_scheduler_tombstones (ops : List SOp) (h : LegalTrace initRun ops) :
    (∀ it, SOp.remove it ∈ ops → it ∉ (runSOps initRun ops).pops) ∧
    (∀ pre suf, ops = pre ++ suf →
      (runSOps initRun pre).sched.count
        = countAdds pre - countRemoves pre - countPops pre) := by
  constructor
  · exact runSOps_remove_not_popped ops initRun wf_initRun h
  · intro pre suf hsplit
    have hpre : LegalTrace initRun pre := legalTrace_take pre suf initRun (hsplit ▸ h)
    have hc := runSOps_count pre initRun wf_initRun hpre
    simpa [initRun, schedEmpty] using hc

/-- C5, witness: the legal sequence add, remove, add, pop — the removed
item is not among the popped ones and the final length is `2 - 1 - 1 = 0`. -/
theorem claim_C5_scheduler_tombstones_witness :
    (⟨5, 1⟩ : SItem) ∉ (runSOps initRun
      [.add 0 5 1, .remove ⟨5, 1⟩, .add 0 3 2, .pop]).pops ∧
    (runSOps initRun [.add 0 5 1, .remove ⟨5, 1⟩, .add 0 3 2, .pop]).sched.count = 0 := by
  have htr : LegalTrace initRun [.add 0 5 1, .remove ⟨5, 1⟩, .add 0 3 2, .pop] := by
    refine .cons ?_ (.cons ?_ (.cons ?_ (.cons ?_ (.nil _))))
    · simp only [LegalOp]; decide
    · exact ⟨by decide, by decide⟩
    · simp only [LegalOp]; decide
    · exact ⟨⟨3, 2⟩, by decide, by decide⟩
  have H := claim_C5_scheduler_tombstones _ htr
  refine ⟨H.1 ⟨5, 1⟩ (by simp), ?_⟩
  have hc := H.2 [.add 0 5 1, .remove ⟨5, 1⟩, .add 0 3 2, .pop] [] (by simp)
  simpa [countAdds, countRemoves, countPops] using hc

/-- C6: when every heap entry has been `remove()`d, `Scheduler.timeout()`
and `Scheduler.pop()` fault — `prune` walks tombstones off the top of the
heap and indexes `queue[0]` without a bounds check, raising `IndexError`
once the heap is exhausted. -/
theorem claim_C6_all_tombstones_fault (s : Scheduler) (now : Int)
    (hq : s.queue.Nodup) (hall : ∀ x ∈ s.queue, x ∈ s.removed) :
    schedTimeout s now = none ∧ schedPop s = none := by
  have hp := prune_none_of_all_removed s.queue s.removed hq hall
  exact ⟨by simp [schedTimeout, hp], by simp [schedPop, hp]⟩

/-- C6, witness: the state reached by one `add` followed by `remove` of
the added item — both `timeout()` and `pop()` fault on it. -/
theorem claim_C6_all_tombstones_fault_witness :
    schedTimeout ⟨0, [⟨5, 1⟩], [⟨5, 1⟩]⟩ 9 = none ∧
    schedPop ⟨0, [⟨5, 1⟩], [⟨5, 1⟩]⟩ = none :=
  claim_C6_all_tombstones_fault ⟨0, [⟨5, 1⟩], [⟨5, 1⟩]⟩ 9 (by decide) (by decide)

/-- C7, counterexample to the claim as stated: a `map(f)` transform that
raises `Filter` does not drop the item — `map`'s loop catches every
`Exception`, `Filter` included, and sends the exception instance itself
downstream as an item. -/
theorem claim_C7_filter_counterexample :
    mapEmit (fun _ => .raises .filterE) 3 = some (.exc .filterE) ∧
    some (CItem.exc .filterE) ≠ (none : Option CItem) := by
  refine ⟨rfl, by decide⟩

/-- C7, amended: for a `Channel` pipeline, a transform raising `Filter`
drops the current item silently (`send` returns with the channel state
untouched and nothing delivered), and a transform raising any other
exception forwards that exception downstream as an item; for `map(f)`,
every exception `f` raises — `Filter` included — is forwarded downstream
as an item, and nothing is ever dropped. -/
theorem claim_C7_filter_amended (fs : List (CItem → TRes)) (g : CItem → TRes)
    (i : CItem) (e : Exc) (c : Chan) (f : Nat → TResV) (n : Nat) :
    (g i = .filterR → runPipeline (g :: fs) i = none) ∧
    (g i = .errR e → runPipeline (g :: fs) i = some (.exc e)) ∧
    (c.closed = false → isClosedExc i = false → c.pipeline.isEmpty = false →
      runPipeline c.pipeline i = none → chanSend c i = (c, .filtered)) ∧
    (f n = .raises e → mapEmit f n = some (.exc e)) := by
  refine ⟨?_, ?_, ?_, ?_⟩
  · intro h; simp [runPipeline, h]
  · intro h; simp [runPipeline, h]
  · intro hcl hexc hpl hrun
    simp [chanSend, hcl, hexc, hpl, hrun]
  · intro h; simp [mapEmit, h]

/-- C7, witness for the amended theorem: a channel whose one-stage
pipeline raises `Filter` drops a sent value with no other effect, and
`map` of a function raising error `9` emits that error as an item. -/
theorem claim_C7_filter_amended_witness :
    runPipeline [fun _ => .filterR] (.val 3) = none ∧
    chanSend ⟨false, [fun _ => .filterR], [], []⟩ (.val 3)
      = (⟨false, [fun _ => .filterR], [], []⟩, .filtered) ∧
    mapEmit (fun _ => .raises (.other 9)) 3 = some (.exc (.other 9)) := by
  have H := claim_C7_filter_amended [] (fun _ => .filterR) (.val 3) (.other 9)
    ⟨false, [fun _ => .filterR], [], []⟩ (fun _ => .raises (.other 9)) 3
  exact ⟨H.1 rfl, H.2.2.1 rfl rfl rfl (H.1 rfl), H.2.2.2 rfl⟩

/-- C8, counterexample to the claim as stated: `unregister` of a
registered fd removes the OS-level epoll registration *first* and closes
the delivery channel only afterwards — the close does not precede the
OS-level removal in the effect trace. -/
theorem claim_C8_unregister_counterexample :
    (hubUnregister [5] 5).2 = [.epollUnreg 5, .chanCloseAct 5, .delReg 5] ∧
    ¬ ((hubUnregister [5] 5).2.indexOf (.chanCloseAct 5)
        < (hubUnregister [5] 5).2.indexOf (.epollUnreg 5)) := by
  decide

/-- C8, amended: for every registered fd, `unregister` removes the fd's
OS-level registration from the multiplexer first, *then* closes the fd's
delivery pipe — the close throws `Closed` into the first parked waiter —
and then deletes the fd, which is afterwards absent from the registered
map. -/
theorem claim_C8_unregister_amended (registered : List Nat) (fd : Nat)
    (hmem : fd ∈ registered) (c : Chan) (w : Nat) (ws : List Nat)
    (hw : c.waiters = w :: ws) (hc : c.closed = false) :
    (hubUnregister registered fd).2
      = [.epollUnreg fd, .chanCloseAct fd, .delReg fd] ∧
    fd ∉ (hubUnregister registered fd).1 ∧
    (chanClose c).2 = .thrown w .closed ∧
    (chanClose c).1.closed = true := by
  refine ⟨by simp [hubUnregister, hmem], ?_, ?_, ?_⟩
  · simp [hubUnregister, hmem, List.mem_filter]
  · simp [chanClose, chanSend, hc, hw, isClosedExc]
  · simp [chanClose]

/-- C8, witness for the amended theorem, at fd 5 registered alone and a
delivery channel with parked waiter 9. -/
theorem claim_C8_unregister_amended_witness :
    (hubUnregister [5] 5).2 = [.epollUnreg 5, .chanCloseAct 5, .delReg 5] ∧
    5 ∉ (hubUnregister [5] 5).1 ∧
    (chanClose ⟨false, [], [], [9]⟩).2 = .thrown 9 .closed := by
  have H := claim_C8_unregister_amended [5] 5 (by decide)
    ⟨false, [], [], [9]⟩ 9 [] rfl rfl
  exact ⟨H.1, H.2.1, H.2.2.1⟩

end Vanilla
